import Mathlib

/-!
Shallow embedding of the s3-cost-estimator repository
(`src/aws_cost_estimator.py`, `src/list_s3_and_estimate.py`).

Modelling conventions:
* Python `dict` values are insertion-ordered association lists
  (`List (String × α)`); assignment, membership test and `+=` accumulation
  are modelled by `setKey`, `List.lookup` and `addTo` below, which reproduce
  Python's insertion-order semantics (a new key is appended at the end, an
  existing key is updated in place).
* Cost amounts (`float(...)` in the source) are modelled as exact rationals
  `ℚ`, following the spec's data model ("decimal amount in USD"); binary
  floating-point rounding is abstracted away. Consequently no theorem here
  speaks about properties that hinge on IEEE-754 rounding, such as the
  iteration-order dependence of double accumulation: those are outside this
  model. The rational abstraction is used only where attribution targets,
  key sets, control flow or rendered text are at stake.
* An API call that may raise is modelled by an `Option`-valued input: `none`
  is the call raising an exception, `some r` is the call returning `r`.
-/

namespace S3CE

/-- Boolean infix test on lists (contiguous sublist). -/
def listIsInfixOf (needle : List Char) : List Char → Bool
  | [] => needle.isEmpty
  | c :: t => needle.isPrefixOf (c :: t) || listIsInfixOf needle t

/-- Python `needle in haystack` on strings: substring containment. -/
def strIn (needle haystack : String) : Bool :=
  listIsInfixOf needle.toList haystack.toList

/-- Python `d[k] = v` on a dict: update in place if present, else append. -/
def setKey {α : Type} (d : List (String × α)) (k : String) (v : α) :
    List (String × α) :=
  match d with
  | [] => [(k, v)]
  | (k', v') :: rest =>
    if k' = k then (k, v) :: rest else (k', v') :: setKey rest k v

/-- Python `if k not in d: d[k] = 0` followed by `d[k] += v` on a dict. -/
def addTo (d : List (String × ℚ)) (k : String) (v : ℚ) : List (String × ℚ) :=
  match d with
  | [] => [(k, v)]
  | (k', v') :: rest =>
    if k' = k then (k', v' + v) :: rest else (k', v') :: addTo rest k v

/-- Update `d[k] = f(d[k])` for a key that may be absent (absent: no change). -/
def modifyKey {α : Type} (d : List (String × α)) (k : String) (f : α → α) :
    List (String × α) :=
  match d with
  | [] => []
  | (k', v') :: rest =>
    if k' = k then (k', f v') :: rest else (k', v') :: modifyKey rest k f

/-- Lookup with a default, `d.get(k, v₀)`. -/
def lookupD {α : Type} (d : List (String × α)) (k : String) (v₀ : α) : α :=
  (d.lookup k).getD v₀

/-! ### Data model of the Cost Explorer responses -/

/-- The value `group['Metrics']['BlendedCost']['Amount']`, parsed by `float(...)`
(the `.get(..., 0)` defaults of the source collapse an absent metric to 0,
which is the stored value here). -/
structure Metrics where
  blendedCostAmount : ℚ
deriving DecidableEq, Repr

/-- One element of `result['Groups']`. -/
structure Group where
  keys : List String
  metrics : Metrics
deriving DecidableEq, Repr

/-- The dict `result['TimePeriod']` with its `Start`/`End` fields
(`End` is a Lean keyword, hence `stop`). `.get(..., 'Unknown')` defaults
of the source are collapsed into the stored strings. -/
structure TimePeriod where
  start : String
  stop : String
deriving DecidableEq, Repr

/-- One element of `ResultsByTime`. -/
structure ResultByTime where
  timePeriod : TimePeriod
  groups : List Group
deriving DecidableEq, Repr

/-- One Cost Explorer response (`{'ResultsByTime': [...]}`). -/
structure CostResponse where
  resultsByTime : List ResultByTime
deriving DecidableEq, Repr

/-- The dict returned by `get_s3_costs_by_bucket_with_client`: possibly
empty (`{}` ↦ both fields `none`), otherwise carrying the `'summary'` and
`'detailed'` responses. `format_cost_data` guards each key separately. -/
structure CostData where
  summary : Option CostResponse
  detailed : Option CostResponse
deriving DecidableEq, Repr

/-- A value of `formatted_data[period_key]`:
`{'total_s3_cost': ..., 'bucket_breakdown': {...}}`. -/
structure CostRecord where
  total_s3_cost : ℚ
  bucket_breakdown : List (String × ℚ)
deriving DecidableEq, Repr

/-- The period key `f"{start}_to_{end}"`. -/
def periodKey (tp : TimePeriod) : String := tp.start ++ "_to_" ++ tp.stop

/-- The sentinel bucket name of the source. -/
def otherS3Costs : String := "Other S3 Costs"

/-! ### `format_cost_data` (src/aws_cost_estimator.py lines 228-283) -/

/-- The `total_cost` accumulation loop (lines 250-253): start at 0 and add
every group's BlendedCost amount. -/
def totalOfGroups (groups : List Group) : ℚ :=
  groups.foldl (fun acc g => acc + g.metrics.blendedCostAmount) 0

/-- The first-match attribution of lines 271-276: `bucket_name` starts as
the sentinel and the loop breaks at the first bucket that is a substring of
the resource id. -/
def firstMatchName (buckets : List String) (resource_id : String) : String :=
  match buckets.find? (fun b => strIn b resource_id) with
  | some b => b
  | none => otherS3Costs

/-- Processing of one detailed group (lines 267-281 loop body):
`resource_id = group.get('Keys', ['Unknown'])[0]`, extract the cost,
attribute by first match and accumulate into the period's breakdown. -/
def processDetailGroup (buckets : List String)
    (fd : List (String × CostRecord)) (pk : String) (g : Group) :
    List (String × CostRecord) :=
  let resource_id := g.keys.headD "Unknown"
  let cost := g.metrics.blendedCostAmount
  let bucket_name := firstMatchName buckets resource_id
  modifyKey fd pk (fun r =>
    { r with bucket_breakdown := addTo r.bucket_breakdown bucket_name cost })

/-- Processing of one detailed `ResultsByTime` entry (lines 262-281):
only periods already present in `formatted_data` are touched. -/
def processDetailResult (buckets : List String)
    (fd : List (String × CostRecord)) (r : ResultByTime) :
    List (String × CostRecord) :=
  let pk := periodKey r.timePeriod
  if (fd.lookup pk).isSome then
    r.groups.foldl (fun fd' g => processDetailGroup buckets fd' pk g) fd
  else fd

/-- Phase 1 of `format_cost_data` (lines 244-258): one record per summary
`ResultsByTime` entry, with the summed total and an empty breakdown. -/
def summaryPhase (results : List ResultByTime) : List (String × CostRecord) :=
  results.foldl
    (fun fd r => setKey fd (periodKey r.timePeriod) ⟨totalOfGroups r.groups, []⟩)
    []

/-- Function `format_cost_data(cost_data, buckets)` (lines 228-283). An empty or
summary-less `cost_data` yields `{}`; the detailed phase runs only when
the `'detailed'` key is present. -/
def format_cost_data (cost_data : CostData) (buckets : List String) :
    List (String × CostRecord) :=
  match cost_data.summary with
  | none => []
  | some s =>
    let fd := summaryPhase s.resultsByTime
    match cost_data.detailed with
    | none => fd
    | some det => det.resultsByTime.foldl (processDetailResult buckets) fd

/-! ### `get_s3_costs_by_bucket_with_client` (lines 50-117)

A single `try`/`except` spans BOTH billing queries; an exception in either
one makes the function return the empty dict `{}` (modelled `⟨none, none⟩`),
discarding any coarse response already obtained. Each argument is the
outcome of the corresponding API call (`none` = the call raised). -/
def get_s3_costs_by_bucket_with_client
    (summaryQuery : Option CostResponse) (detailedQuery : Option CostResponse) :
    CostData :=
  match summaryQuery with
  | none => ⟨none, none⟩
  | some s =>
    match detailedQuery with
    | none => ⟨none, none⟩
    | some d => ⟨some s, some d⟩

/-! ### String-formatting helpers

Lean's built-in `String.replace`, `String.toUpper`, … are implemented over
byte positions with well-founded recursion, so equivalent structural
versions over `List Char` are defined here. -/

/-- Replace every occurrence of `pat` by `rep` (Python `str.replace`). -/
def replaceChars (pat rep : List Char) : List Char → List Char
  | [] => []
  | c :: t =>
    if pat.isPrefixOf (c :: t) ∧ pat ≠ [] then
      rep ++ replaceChars pat rep ((c :: t).drop pat.length)
    else
      c :: replaceChars pat rep t
termination_by l => l.length
decreasing_by
  all_goals simp [List.length_drop]
  rename_i h
  have hne : pat ≠ [] := h.2
  have : 1 ≤ pat.length := by
    cases pat with
    | nil => simp at hne
    | cons a l => simp
  omega

/-- Python `s.replace(pat, rep)`. -/
def strReplace (s pat rep : String) : String :=
  String.mk (replaceChars pat.toList rep.toList s.toList)

/-- Python `s.upper()`. -/
def strUpper (s : String) : String := String.mk (s.toList.map Char.toUpper)

/-- Python `s.capitalize()`: first character upper-cased, the rest lower-cased. -/
def capitalize (s : String) : String :=
  match s.toList with
  | [] => ""
  | c :: rest => String.mk (Char.toUpper c :: rest.map Char.toLower)

/-- Python `c * n` (e.g. `"=" * 80`). -/
def repChar (c : Char) (n : Nat) : String := String.mk (List.replicate n c)

/-- Python format spec `{x:<w}`: left-align in a field of width `w`. -/
def padRight (s : String) (w : Nat) : String := s ++ repChar ' ' (w - s.length)

/-- Python format spec `{x:w}` on numbers: right-align in width `w`. -/
def padLeft (s : String) (w : Nat) : String := repChar ' ' (w - s.length) ++ s

/-- Floor of a rational, computed structurally. -/
def floorQ (x : ℚ) : Int := Int.fdiv x.num x.den

/-- The number of cents printed by `%.2f`: round half to even at two
decimals (the exact-decimal abstraction of Python float formatting). -/
def roundCents (q : ℚ) : Int :=
  let x : ℚ := q * 100
  let f : Int := floorQ x
  let r : ℚ := x - (f : ℚ)
  if r < 1/2 then f
  else if (1 : ℚ)/2 < r then f + 1
  else if f % 2 = 0 then f else f + 1

/-- Two-digit zero-padded rendering of `n < 100`. -/
def pad2 (n : Nat) : String := if n < 10 then "0" ++ toString n else toString n

/-- Python `f"{q:.2f}"`. -/
def fmt2 (q : ℚ) : String :=
  let c := roundCents q
  let s := toString (c.natAbs / 100) ++ "." ++ pad2 (c.natAbs % 100)
  if c < 0 then "-" ++ s else s

/-! ### `generate_report_content` (src/aws_cost_estimator.py lines 353-432) -/

/-- The fixed period enumeration used at lines 321 and 386. -/
def canonicalPeriods : List String := ["day", "week", "month", "quarter", "year"]

/-- The summary-row accumulation loop (lines 389-395): sum the totals and
keep the last non-`'total'` period key as the displayed date range. -/
def summaryFold (fd : List (String × CostRecord)) : ℚ × String :=
  fd.foldl
    (fun acc pd =>
      (acc.1 + pd.2.total_s3_cost,
       if pd.1 ≠ "total" then strReplace pd.1 "_to_" " to " else acc.2))
    (0, "N/A")

/-- One summary-table row (line 397):
`f"{period.capitalize():<12} ${total_cost:<17.2f} {date_range}"`. -/
def summaryRow (period : String) (fd : List (String × CostRecord)) : String :=
  let acc := summaryFold fd
  padRight (capitalize period) 12 ++ " $" ++ padRight (fmt2 acc.1) 17 ++ " " ++ acc.2

/-- All summary rows (lines 386-397): one per period present in
`all_costs`, in canonical period order. -/
def summaryRows (all_costs : List (String × List (String × CostRecord))) :
    List String :=
  canonicalPeriods.filterMap fun p => (all_costs.lookup p).map (summaryRow p)

/-- The breakdown block of one record (lines 416-422): the entries exactly
in the mapping's insertion order (the source performs no sorting). -/
def breakdownLines (bd : List (String × ℚ)) : List String :=
  if bd.isEmpty then ["  (No detailed breakdown available)"]
  else
    "Breakdown by resource:" ::
      bd.map (fun rc => "  - " ++ rc.1 ++ ": $" ++ fmt2 rc.2)

/-- The detail lines of one `(period_key, data)` pair (lines 409-423). -/
def recordDetailLines (pk : String) (data : CostRecord) : List String :=
  if pk = "total" then []
  else
    ("Period: " ++ strReplace pk "_to_" " to ") ::
      ("Total S3 Cost: $" ++ fmt2 data.total_s3_cost) ::
      (breakdownLines data.bucket_breakdown ++ [""])

/-- The detail section of one period (lines 402-423): nothing when the
period is absent from `all_costs`. -/
def detailSection (all_costs : List (String × List (String × CostRecord)))
    (period : String) : List String :=
  match all_costs.lookup period with
  | none => []
  | some fd =>
    ("DETAILED BREAKDOWN - " ++ strUpper period) :: repChar '-' 40 ::
      (fd.map (fun pd => recordDetailLines pd.1 pd.2)).flatten

/-- The full list `report` of lines built by `generate_report_content`
(lines 365-430). `now` is the string produced by `datetime.now().strftime`
at line 369 — a hidden clock input of the source function. -/
def reportLines (all_costs : List (String × List (String × CostRecord)))
    (buckets : List String) (region : String) (now : String) : List String :=
  [repChar '=' 80,
   "AWS S3 COST ESTIMATION REPORT",
   repChar '=' 80,
   "Generated on: " ++ now,
   "AWS Region: " ++ region,
   "Total buckets analyzed: " ++ toString buckets.length,
   "",
   "BUCKETS IN SCOPE:",
   repChar '-' 20]
  ++ (buckets.enumFrom 1).map (fun ib => padLeft (toString ib.1) 2 ++ ". " ++ ib.2)
  ++ ["",
      "COST SUMMARY BY PERIOD",
      repChar '-' 25,
      padRight "Period" 12 ++ " " ++ padRight "Total Cost (USD)" 18 ++ " "
        ++ padRight "Date Range" 25,
      repChar '-' 60]
  ++ summaryRows all_costs
  ++ [""]
  ++ (canonicalPeriods.map (detailSection all_costs)).flatten
  ++ [repChar '=' 80,
      "NOTE: Cost data is retrieved from AWS Cost Explorer API.",
      "Costs may include storage, requests, and data transfer charges.",
      "Detailed bucket-level breakdown depends on AWS Cost Explorer",
      "configuration and may show aggregated costs.",
      repChar '=' 80]

/-- Function `generate_report_content(all_costs, buckets, region)`:
`"\n".join(report)`. -/
def generate_report_content (all_costs : List (String × List (String × CostRecord)))
    (buckets : List String) (region : String) (now : String) : String :=
  String.intercalate "\n" (reportLines all_costs buckets region now)

/-! ### `Cost_Estimate` (src/aws_cost_estimator.py lines 285-351) -/

/-- Function `get_s3_buckets_with_client` (lines 33-48): the listing result, or `[]`
when the call raised (`none`). -/
def get_s3_buckets_with_client (listing : Option (List String)) : List String :=
  match listing with
  | none => []
  | some names => names

/-- The `bucket_list` name part of the report file name (lines 331-333):
join of the first three bucket names, plus `_and_{n-3}_more` when more
than three buckets exist. -/
def joinUnderscore : List String → String
  | [] => ""
  | [b] => b
  | b :: rest => b ++ "_" ++ joinUnderscore rest

def bucketListName (buckets : List String) : String :=
  let s := joinUnderscore (buckets.take 3)
  if buckets.length > 3 then
    s ++ "_and_" ++ toString (buckets.length - 3) ++ "_more"
  else s

/-- The generated file name (line 336):
`f"{bucket_list}_{region_info}_{timestamp}_cost_report.txt"`. -/
def reportFilename (buckets : List String) (region_info timestamp : String) :
    String :=
  bucketListName buckets ++ "_" ++ region_info ++ "_" ++ timestamp
    ++ "_cost_report.txt"

/-- Observable outcome of one `Cost_Estimate` run: the returned string, the
number of periods for which a billing query round was issued, and whether a
report file was written. -/
structure EstimateOutcome where
  returnPath : String
  billingQueryRounds : Nat
  reportFileWritten : Bool
deriving DecidableEq, Repr

/-- Method `Cost_Estimate` (lines 285-351). `listing` is the bucket-listing call's
outcome, `queryOutcome p` the period-`p` billing data (already through
`get_s3_costs_by_bucket_with_client`), `writeSucceeds` whether the file
write raises.  An empty bucket resolution returns `""` before any billing
query; otherwise all five periods are queried, the report is rendered and
written, and the file path (or `""` on a write failure) is returned. -/
def Cost_Estimate (listing : Option (List String))
    (queryOutcome : String → CostData) (writeSucceeds : Bool)
    (output_dir region_info timestamp now : String) : EstimateOutcome :=
  let buckets := get_s3_buckets_with_client listing
  if buckets.isEmpty then ⟨"", 0, false⟩
  else
    let all_costs := canonicalPeriods.map
      (fun p => (p, format_cost_data (queryOutcome p) buckets))
    let filename := reportFilename buckets region_info timestamp
    let filepath := output_dir ++ "/" ++ filename
    let _report_content := generate_report_content all_costs buckets region_info now
    if writeSucceeds then ⟨filepath, canonicalPeriods.length, true⟩
    else ⟨"", canonicalPeriods.length, false⟩

/-! ### `list_bucket_objects` (src/list_s3_and_estimate.py lines 26-51)

The paginator's output is modelled by `pages`, the list of each page's
`Contents` (already prefix-filtered by the API); an exception-free listing
run is modelled. -/

/-- The inner `for obj in page` loop (lines 45-49): yields each object,
increments `count`, and fires the `return` when the cap check
`not fetch_all and max_keys is not None and count >= max_keys` — evaluated
AFTER the yield — succeeds. Returns (yielded items, new count, stopped?). -/
def lboObjs (max_keys : Option Nat) (fetch_all : Bool) :
    List (String × Nat) → Nat → List (String × Nat) × Nat × Bool
  | [], count => ([], count, false)
  | o :: rest, count =>
    let count' := count + 1
    if !fetch_all && (match max_keys with
        | some m => decide (m ≤ count')
        | none => false) then
      ([o], count', true)
    else
      let r := lboObjs max_keys fetch_all rest count'
      (o :: r.1, r.2.1, r.2.2)

/-- The outer `for page in paginator.paginate(...)` loop (line 44). -/
def lboPages (max_keys : Option Nat) (fetch_all : Bool) :
    List (List (String × Nat)) → Nat → List (String × Nat)
  | [], _ => []
  | pg :: rest, count =>
    let r := lboObjs max_keys fetch_all pg count
    if r.2.2 then r.1 else r.1 ++ lboPages max_keys fetch_all rest r.2.1

/-- Function `list_bucket_objects(s3, bucket, prefix, max_keys, fetch_all)` as the
list of all `(key, size_bytes)` pairs the generator yields. -/
def list_bucket_objects (pages : List (List (String × Nat)))
    (max_keys : Option Nat) (fetch_all : Bool) : List (String × Nat) :=
  lboPages max_keys fetch_all pages 0

/-! ### `main` of src/list_s3_and_estimate.py (lines 118-147) -/

/-- Observable outcome of the CLI entry point, restricted to the bucket
resolution stage: the process exit code and whether control reached the
inventory/report-generation stage. -/
structure MainOutcome where
  exitCode : Nat
  reportGenerationReached : Bool
deriving DecidableEq, Repr

/-- The resolution logic of `main` (lines 124-130): `if args.bucket:` takes
the explicit list when it is truthy (present and non-empty), otherwise all
buckets are listed; an empty listing prints and `sys.exit(1)`s before the
inventory and report stages. -/
def mainRun (cliBuckets : Option (List String)) (allBuckets : List String) :
    MainOutcome :=
  let explicitTruthy := match cliBuckets with
    | some bs => !bs.isEmpty
    | none => false
  if explicitTruthy then ⟨0, true⟩
  else if allBuckets.isEmpty then ⟨1, false⟩
  else ⟨0, true⟩

/-! ### Derived views of the code, used to state the verified properties -/

/-- The bucket (or sentinel) name one detailed item is attributed to. -/
def groupName (buckets : List String) (g : Group) : String :=
  firstMatchName buckets (g.keys.headD "Unknown")

/-- The cost amount of one detailed line item. -/
def groupCost (g : Group) : ℚ := g.metrics.blendedCostAmount

/-- Accumulation of a list of detailed items into a breakdown dict,
item by item in order (the inner loop of lines 267-281). -/
def buildBD (buckets : List String) (bd : List (String × ℚ))
    (items : List Group) : List (String × ℚ) :=
  items.foldl (fun bd' g => addTo bd' (groupName buckets g) (groupCost g)) bd

/-- Sum of the amounts of the items attributed to key `k`. -/
def attributedSum (buckets : List String) (items : List Group) (k : String) :
    ℚ :=
  ((items.filter (fun g => groupName buckets g == k)).map groupCost).sum

/-- The breakdown dict stored under period `pk` (empty when absent). -/
def breakdownAt (fd : List (String × CostRecord)) (pk : String) :
    List (String × ℚ) :=
  ((fd.lookup pk).map (fun r => r.bucket_breakdown)).getD []

/-- The detailed line items belonging to period `pk`, in processing order. -/
def detailItemsFor (results : List ResultByTime) (pk : String) : List Group :=
  ((results.filter (fun r => periodKey r.timePeriod == pk)).map
    (fun r => r.groups)).flatten

/-- Every cost amount of every detailed line item of `cost_data`. -/
def allDetailCosts (cost_data : CostData) : List ℚ :=
  match cost_data.detailed with
  | none => []
  | some det => ((det.resultsByTime.map (fun r => r.groups)).flatten).map groupCost

/-- Soundness of one breakdown entry: its key is a known bucket or the
sentinel, and its value is a sum of zero or more amounts drawn from
`costs`. -/
def GoodEntry (buckets : List String) (costs : List ℚ) (p : String × ℚ) :
    Prop :=
  (p.1 ∈ buckets ∨ p.1 = otherS3Costs)
  ∧ ∃ l : List ℚ, (∀ c ∈ l, c ∈ costs) ∧ p.2 = l.sum

end S3CE

-- sanity checks on the embedding (removed from claims, kept as examples)
example : S3CE.strIn "alpha" "arn:aws:s3:::alpha-bucket" = true := by decide

example :
    S3CE.format_cost_data
      ⟨some ⟨[⟨⟨"a", "b"⟩, [⟨["acct", "s3"], ⟨3⟩⟩, ⟨["acct2", "s3"], ⟨4⟩⟩]⟩]⟩,
       some ⟨[⟨⟨"a", "b"⟩, [⟨["arn:::alpha/x"], ⟨5⟩⟩, ⟨["zzz"], ⟨2⟩⟩]⟩]⟩⟩
      ["alpha", "beta"]
    = [("a_to_b", ⟨7, [("alpha", 5), ("Other S3 Costs", 2)]⟩)] := by
  simp [S3CE.format_cost_data, S3CE.summaryPhase, S3CE.processDetailResult,
    S3CE.processDetailGroup, S3CE.firstMatchName, S3CE.periodKey, S3CE.totalOfGroups,
    S3CE.setKey, S3CE.addTo, S3CE.modifyKey, S3CE.strIn, S3CE.listIsInfixOf,
    S3CE.otherS3Costs, List.lookup]
  norm_num

namespace S3CE

/-! ### Shared helper lemmas -/

/-- String concatenation is associative. -/
theorem strApp_assoc (a b c : String) : a ++ b ++ c = a ++ (b ++ c) := by
  cases a with | mk la =>
  cases b with | mk lb =>
  cases c with | mk lc =>
  show String.mk (la ++ lb ++ lc) = String.mk (la ++ (lb ++ lc))
  rw [List.append_assoc]

end S3CE

namespace S3CE

/-! ### C2 — a detailed-query failure discards the coarse result -/

/-- C2 (code behavior at the failing input): when the coarse query succeeds
with response `s` and the detailed query raises, the single `try`/`except`
of `get_s3_costs_by_bucket_with_client` returns the empty dict; therefore
`format_cost_data` produces no record at all for the period — the coarse
`total_cost` is lost, contrary to the claim that it survives with an empty
breakdown. -/
theorem detailed_failure_discards_coarse (s : CostResponse)
    (buckets : List String) :
    get_s3_costs_by_bucket_with_client (some s) none = ⟨none, none⟩
    ∧ format_cost_data (get_s3_costs_by_bucket_with_client (some s) none)
        buckets = [] := by
  simp [get_s3_costs_by_bucket_with_client, format_cost_data]

/-! ### C4 — report rendering and the hidden clock input -/

set_option maxRecDepth 8192 in
/-- C4 counterexample: two calls of `generate_report_content` with
identical region, bucket list and cost collection but different readings of
the hidden `datetime.now()` clock produce different text, refuting
byte-identical output for identical (region, buckets, costs) inputs. -/
theorem report_not_deterministic_across_clock :
    generate_report_content [] [] "us-east-1" "2025-01-01 00:00:00"
      ≠ generate_report_content [] [] "us-east-1" "2025-01-01 00:00:01" := by
  decide

/-- C4 (amended): rendering is deterministic once the generation timestamp
is included among the inputs — two calls with identical cost collections,
buckets, region and equal clock readings produce byte-identical text. -/
theorem report_deterministic_given_timestamp
    (ac : List (String × List (String × CostRecord)))
    (buckets : List String) (region t₁ t₂ : String) (h : t₁ = t₂) :
    generate_report_content ac buckets region t₁
      = generate_report_content ac buckets region t₂ := by
  rw [h]

/-- Witness for the amended C4 at a concrete input. -/
theorem report_deterministic_given_timestamp_witness :
    generate_report_content [] ["a"] "r" "t"
      = generate_report_content [] ["a"] "r" "t" :=
  report_deterministic_given_timestamp [] ["a"] "r" "t" "t" rfl

/-! ### C6 — the generated file name -/

/-- C6 counterexample: with exactly two buckets the file name joins both
names with no `_and_0_more` part, refuting the claimed
`<first>_<second>_and_<n-2>_more` shape for every `n ≥ 2`. -/
theorem filename_two_buckets_counterexample :
    reportFilename ["a", "b"] "r" "t" = "a_b_r_t_cost_report.txt"
    ∧ reportFilename ["a", "b"] "r" "t"
        ≠ "a_b_and_0_more_r_t_cost_report.txt" := by
  decide

/-- C6 (amended): the name part of
`<name-part>_<region>_<timestamp>_cost_report.txt` is the underscore-join
of the first `min 3 n` bucket names, followed by `_and_<n-3>_more` exactly
when more than three buckets are in scope. -/
theorem filename_name_part_first_three (b₁ b₂ b₃ b₄ : String)
    (rest : List String) (region ts : String) :
    reportFilename [b₁] region ts
      = b₁ ++ "_" ++ region ++ "_" ++ ts ++ "_cost_report.txt"
    ∧ reportFilename [b₁, b₂] region ts
      = b₁ ++ "_" ++ b₂ ++ "_" ++ region ++ "_" ++ ts ++ "_cost_report.txt"
    ∧ reportFilename [b₁, b₂, b₃] region ts
      = b₁ ++ "_" ++ b₂ ++ "_" ++ b₃ ++ "_" ++ region ++ "_" ++ ts
          ++ "_cost_report.txt"
    ∧ reportFilename (b₁ :: b₂ :: b₃ :: b₄ :: rest) region ts
      = b₁ ++ "_" ++ b₂ ++ "_" ++ b₃ ++ "_and_" ++ toString (rest.length + 1)
          ++ "_more_" ++ region ++ "_" ++ ts ++ "_cost_report.txt" := by
  refine ⟨?_, ?_, ?_, ?_⟩ <;>
    simp [reportFilename, bucketListName, joinUnderscore, strApp_assoc]

/-! ### C9 — empty bucket resolution aborts the run -/

/-- C9: when bucket listing yields the empty sequence (empty account or a
listing failure, both of which `get_s3_buckets_with_client` renders as
`[]`), `Cost_Estimate` returns the empty-string failure indicator with no
billing query issued and no report file written; and the CLI `main`, with
no truthy explicit bucket argument and an empty listing, exits with code 1
before reaching report generation. -/
theorem empty_resolution_aborts (listing : Option (List String))
    (queryOutcome : String → CostData) (writeSucceeds : Bool)
    (output_dir region_info timestamp now : String)
    (cli : Option (List String))
    (hl : get_s3_buckets_with_client listing = [])
    (hcli : cli = none ∨ cli = some []) :
    Cost_Estimate listing queryOutcome writeSucceeds output_dir region_info
        timestamp now = ⟨"", 0, false⟩
    ∧ mainRun cli [] = ⟨1, false⟩ := by
  constructor
  · simp [Cost_Estimate, hl]
  · rcases hcli with h | h <;> simp [mainRun, h]

/-- Witness for C9: a successful listing that returns no buckets, and a CLI
invocation with no `--bucket` flags. -/
theorem empty_resolution_aborts_witness :
    Cost_Estimate (some []) (fun _ => ⟨none, none⟩) true "./cost_reports"
        "us-east-1" "ts" "now" = ⟨"", 0, false⟩
    ∧ mainRun none [] = ⟨1, false⟩ :=
  empty_resolution_aborts (some []) (fun _ => ⟨none, none⟩) true
    "./cost_reports" "us-east-1" "ts" "now" none rfl (Or.inl rfl)

end S3CE

namespace S3CE

/-! ### C8 — pagination and the item cap -/

/-- The inner listing loop under a cap `m` with `fetch_all` false: because
the cap check runs after each yield, the remaining budget is
`max (m - count) 1`, never 0. -/
theorem lboObjs_cap (m : Nat) (objs : List (String × Nat)) (count : Nat) :
    lboObjs (some m) false objs count
      = (objs.take (max (m - count) 1),
         count + min (max (m - count) 1) objs.length,
         decide (max (m - count) 1 ≤ objs.length)) := by
  induction objs generalizing count with
  | nil => simp [lboObjs]
  | cons o rest ih =>
    simp only [lboObjs]
    by_cases h : m ≤ count + 1
    · have hk : max (m - count) 1 = 1 := by omega
      simp [h, hk, List.take_succ_cons]
    · have hk : max (m - count) 1 = (max (m - (count + 1)) 1) + 1 := by omega
      have h' : ¬ (m ≤ count + 1) := h
      simp only [h', decide_eq_true_eq, if_neg, Bool.and_false, decide_False,
        Bool.false_and, Bool.not_false, Bool.true_and, ih (count + 1), hk,
        List.take_succ_cons, if_false]
      refine Prod.ext ?_ (Prod.ext ?_ ?_)
      all_goals simp [List.take_succ_cons]
      all_goals omega

/-- The inner listing loop with `fetch_all` true never stops early. -/
theorem lboObjs_all (mk : Option Nat) (objs : List (String × Nat))
    (count : Nat) :
    lboObjs mk true objs count = (objs, count + objs.length, false) := by
  induction objs generalizing count with
  | nil => simp [lboObjs]
  | cons o rest ih =>
    simp [lboObjs, ih (count + 1)]
    omega

/-- The page loop under a cap yields a prefix of the concatenated pages:
exactly the first `max (m - count) 1` objects. -/
theorem lboPages_cap (m : Nat) (pages : List (List (String × Nat)))
    (count : Nat) :
    lboPages (some m) false pages count
      = pages.flatten.take (max (m - count) 1) := by
  induction pages generalizing count with
  | nil => simp [lboPages]
  | cons pg rest ih =>
    simp only [lboPages, lboObjs_cap, List.flatten_cons,
      List.take_append_eq_append_take]
    by_cases h : max (m - count) 1 ≤ pg.length
    · simp [h, Nat.sub_eq_zero_of_le h]
    · have hlen : pg.length < max (m - count) 1 := by omega
      have htk : pg.take (max (m - count) 1) = pg :=
        List.take_of_length_le (by omega)
      have hmin : min (max (m - count) 1) pg.length = pg.length := by omega
      have hbudget : max (m - count) 1 - pg.length
          = max (m - (count + pg.length)) 1 := by omega
      simp [h, htk, hmin, ih (count + pg.length), hbudget]

/-- The page loop with `fetch_all` true concatenates every page. -/
theorem lboPages_all (mk : Option Nat) (pages : List (List (String × Nat)))
    (count : Nat) :
    lboPages mk true pages count = pages.flatten := by
  induction pages generalizing count with
  | nil => simp [lboPages]
  | cons pg rest ih => simp [lboPages, lboObjs_all, ih]

/-- C8 counterexample: a bucket with one object and a supplied cap of 0
yields one pair, not `min 0 1 = 0` — the cap check runs only after a
yield, so a cap of 0 behaves like a cap of 1. -/
theorem list_bucket_objects_zero_cap_counterexample :
    list_bucket_objects [[("k", 1)]] (some 0) false = [("k", 1)]
    ∧ (list_bucket_objects [[("k", 1)]] (some 0) false).length
        ≠ min 0 ([[("k", (1 : Nat))]].flatten).length := by
  decide

/-- C8 (amended): with `fetch_all` false and a supplied cap `M`,
`list_bucket_objects` yields exactly the first `min (max M 1) N` of the `N`
available pairs (so exactly `min M N` for every `M ≥ 1`), and with
`fetch_all` true it yields all `N` pairs across pagination. -/
theorem list_bucket_objects_cap_behavior
    (pages : List (List (String × Nat))) (M : Nat) (mk : Option Nat) :
    list_bucket_objects pages (some M) false
      = pages.flatten.take (max M 1)
    ∧ (list_bucket_objects pages (some M) false).length
        = min (max M 1) pages.flatten.length
    ∧ list_bucket_objects pages mk true = pages.flatten := by
  have h1 : list_bucket_objects pages (some M) false
      = pages.flatten.take (max M 1) := by
    simpa using lboPages_cap M pages 0
  exact ⟨h1, by rw [h1, List.length_take], lboPages_all mk pages 0⟩

end S3CE

namespace S3CE

/-! ### C7 — periods absent from the aggregation result -/

/-- Counting lemma: a `filterMap` through an `Option.map` keeps exactly the
elements whose option is `some`. -/
theorem length_filterMap_map {α β γ : Type} (l : List α) (F : α → Option β)
    (G : α → β → γ) :
    (l.filterMap (fun q => (F q).map (G q))).length
      = (l.filter (fun q => (F q).isSome)).length := by
  induction l with
  | nil => rfl
  | cons a t ih => cases hF : F a <;> simp [hF, ih]

/-- C7 counterexample: a period whose billing queries failed gets the empty
record `{}` from `format_cost_data`, and with that record PRESENT in
`all_costs` the report still renders a placeholder summary row
(`$0.00` / `N/A`) and an empty detail-section header for it, contradicting
the claim that such a period never appears. -/
theorem failed_period_renders_placeholder_row :
    format_cost_data ⟨none, none⟩ ["a"] = []
    ∧ "Day          $0.00              N/A"
        ∈ reportLines [("day", [])] ["a"] "r" "t"
    ∧ "DETAILED BREAKDOWN - DAY" ∈ reportLines [("day", [])] ["a"] "r" "t" := by
  refine ⟨by simp [format_cost_data], ?_, ?_⟩
  all_goals
    simp [reportLines, summaryRows, summaryRow, summaryFold, canonicalPeriods,
      detailSection, recordDetailLines, breakdownLines, capitalize, padRight,
      padLeft, repChar, fmt2, roundCents, floorQ, pad2, strReplace,
      replaceChars, strUpper, List.lookup]
  all_goals decide

/-- C7 (amended): a period name entirely ABSENT from `all_costs` (no key at
all) contributes neither a summary row nor a detail section: its detail
section is empty and the summary table has exactly one row per present
period. (A period present with an empty record, as produced by a failed
query through `Cost_Estimate`, still renders placeholder output — see the
counterexample.) -/
theorem absent_period_has_no_rows
    (ac : List (String × List (String × CostRecord))) (p : String)
    (hp : ac.lookup p = none) :
    detailSection ac p = []
    ∧ (summaryRows ac).length
        = (canonicalPeriods.filter (fun q => (ac.lookup q).isSome)).length := by
  constructor
  · simp [detailSection, hp]
  · exact length_filterMap_map canonicalPeriods (fun q => ac.lookup q)
      (fun q fd => summaryRow q fd)

/-- Witness for the amended C7: `"day"` is absent from an `all_costs` that
only contains `"week"`. -/
theorem absent_period_has_no_rows_witness :
    detailSection [("week", [])] "day" = []
    ∧ (summaryRows [("week", [])]).length
        = (canonicalPeriods.filter
            (fun q => (([("week", [])] :
              List (String × List (String × CostRecord))).lookup q).isSome)).length :=
  absent_period_has_no_rows [("week", [])] "day" (by decide)

end S3CE

namespace S3CE

/-! ### C5 — order of the rendered breakdown entries -/

/-- C5 counterexample: the renderer iterates `bucket_breakdown.items()` in
insertion order and performs no sorting, so an entry with the smaller
amount inserted first is listed first — not sorted by cost descending as
claimed. -/
theorem breakdown_not_sorted_descending :
    breakdownLines [("alpha", (1 : ℚ)), ("beta", 5)]
      = ["Breakdown by resource:", "  - alpha: $1.00", "  - beta: $5.00"]
    ∧ breakdownLines [("alpha", (1 : ℚ)), ("beta", 5)]
      ≠ ["Breakdown by resource:", "  - beta: $5.00", "  - alpha: $1.00"]
    ∧ recordDetailLines "a_to_b" ⟨6, [("alpha", 1), ("beta", 5)]⟩
      = ["Period: a to b", "Total S3 Cost: $6.00", "Breakdown by resource:",
         "  - alpha: $1.00", "  - beta: $5.00", ""] := by
  refine ⟨?_, ?_, ?_⟩
  all_goals
    norm_num [breakdownLines, recordDetailLines, fmt2, roundCents, floorQ,
      pad2, strReplace, replaceChars]
  all_goals decide

/-- C5 (amended): in every per-period detail section with a non-empty
`bucket_breakdown`, the entries are listed in the mapping's insertion
order (first-attribution order), each formatted as
`  - <name>: $<amount, 2 decimals>`; an empty breakdown renders the
`(No detailed breakdown available)` line instead. -/
theorem detail_lines_in_insertion_order (pk : String) (rec : CostRecord)
    (hpk : pk ≠ "total") :
    (rec.bucket_breakdown ≠ [] →
      recordDetailLines pk rec
        = ("Period: " ++ strReplace pk "_to_" " to ")
          :: ("Total S3 Cost: $" ++ fmt2 rec.total_s3_cost)
          :: "Breakdown by resource:"
          :: (rec.bucket_breakdown.map
                (fun rc => "  - " ++ rc.1 ++ ": $" ++ fmt2 rc.2) ++ [""]))
    ∧ (rec.bucket_breakdown = [] →
      recordDetailLines pk rec
        = ["Period: " ++ strReplace pk "_to_" " to ",
           "Total S3 Cost: $" ++ fmt2 rec.total_s3_cost,
           "  (No detailed breakdown available)", ""]) := by
  constructor <;> intro h <;>
    simp [recordDetailLines, breakdownLines, hpk, h]

/-- Witness for the amended C5 at a concrete one-entry breakdown. -/
theorem detail_lines_in_insertion_order_witness :
    recordDetailLines "a_to_b" ⟨6, [("alpha", (1 : ℚ))]⟩
      = ("Period: " ++ strReplace "a_to_b" "_to_" " to ")
        :: ("Total S3 Cost: $" ++ fmt2 6)
        :: "Breakdown by resource:"
        :: ([("alpha", (1 : ℚ))].map
              (fun rc => "  - " ++ rc.1 ++ ": $" ++ fmt2 rc.2) ++ [""]) :=
  (detail_lines_in_insertion_order "a_to_b" ⟨6, [("alpha", 1)]⟩
    (by decide)).1 (by simp)

end S3CE


namespace S3CE

/-! ### Dict-level lemmas for the attribution proof -/

/-- Unfolding equation: accumulating one more item. -/
theorem buildBD_cons (buckets : List String) (bd : List (String × ℚ))
    (g : Group) (t : List Group) :
    buildBD buckets bd (g :: t)
      = buildBD buckets (addTo bd (groupName buckets g) (groupCost g)) t := rfl

/-- Lookup after an accumulation step. -/
theorem lookup_addTo (d : List (String × ℚ)) (k k' : String) (v : ℚ) :
    (addTo d k v).lookup k'
      = if k' = k then some ((d.lookup k').getD 0 + v) else d.lookup k' := by
  induction d with
  | nil =>
    by_cases h : k' = k
    · subst h; simp [addTo, List.lookup_cons]
    · simp [addTo, List.lookup_cons, beq_false_of_ne h, h]
  | cons p rest ih =>
    obtain ⟨a, b⟩ := p
    by_cases ha : a = k
    · subst ha
      by_cases h : k' = a
      · subst h; simp [addTo, List.lookup_cons]
      · simp [addTo, List.lookup_cons, beq_false_of_ne h, h]
    · by_cases h : k' = a
      · subst h
        simp [addTo, ha, List.lookup_cons]
      · simp [addTo, ha, List.lookup_cons, beq_false_of_ne h, h, ih]

/-- One-step unfolding of the attributed sum. -/
theorem attributedSum_cons (buckets : List String) (g : Group)
    (t : List Group) (k : String) :
    attributedSum buckets (g :: t) k
      = (if groupName buckets g = k then groupCost g else 0)
        + attributedSum buckets t k := by
  by_cases h : groupName buckets g = k <;>
    simp [attributedSum, List.filter_cons, h]

/-- The value stored under `k` after accumulating `items` is the starting
value plus the sum of the amounts attributed to `k`. -/
theorem lookupD_buildBD (buckets : List String) (items : List Group)
    (bd : List (String × ℚ)) (k : String) :
    lookupD (buildBD buckets bd items) k 0
      = lookupD bd k 0 + attributedSum buckets items k := by
  induction items generalizing bd with
  | nil => simp [buildBD, attributedSum, lookupD]
  | cons g t ih =>
    rw [buildBD_cons, ih, attributedSum_cons]
    unfold lookupD
    rw [lookup_addTo]
    by_cases h : k = groupName buckets g
    · simp [h]
      ring
    · simp [h, Ne.symm h]

end S3CE

namespace S3CE

/-! ### modifyKey lemmas and the detailed-phase fold invariant -/

/-- Modifying a key leaves every other lookup unchanged. -/
theorem lookup_modifyKey_ne {α : Type} (d : List (String × α)) (k k' : String)
    (f : α → α) (h : k' ≠ k) :
    (modifyKey d k f).lookup k' = d.lookup k' := by
  induction d with
  | nil => simp [modifyKey]
  | cons p rest ih =>
    obtain ⟨a, b⟩ := p
    by_cases ha : a = k
    · subst ha
      simp [modifyKey, List.lookup_cons, beq_false_of_ne h]
  -- the head key equals k, so the tail is untouched and k' misses the head
    · by_cases h' : k' = a
      · subst h'
        simp [modifyKey, ha, List.lookup_cons]
      · simp [modifyKey, ha, List.lookup_cons, beq_false_of_ne h', ih]

/-- Modifying a key maps its (first) stored value through `f`. -/
theorem lookup_modifyKey_self {α : Type} (d : List (String × α)) (k : String)
    (f : α → α) :
    (modifyKey d k f).lookup k = (d.lookup k).map f := by
  induction d with
  | nil => simp [modifyKey]
  | cons p rest ih =>
    obtain ⟨a, b⟩ := p
    by_cases ha : a = k
    · subst ha
      simp [modifyKey, List.lookup_cons]
    · simp [modifyKey, ha, List.lookup_cons, beq_false_of_ne (Ne.symm ha), ih]

/-- Two modifications of the same key compose. -/
theorem modifyKey_modifyKey {α : Type} (d : List (String × α)) (k : String)
    (f g : α → α) :
    modifyKey (modifyKey d k f) k g = modifyKey d k (fun x => g (f x)) := by
  induction d with
  | nil => simp [modifyKey]
  | cons p rest ih =>
    obtain ⟨a, b⟩ := p
    by_cases ha : a = k <;> simp [modifyKey, ha, ih]

/-- Modifying with the identity is a no-op. -/
theorem modifyKey_id {α : Type} (d : List (String × α)) (k : String) :
    modifyKey d k (fun x => x) = d := by
  induction d with
  | nil => rfl
  | cons p rest ih =>
    obtain ⟨a, b⟩ := p
    by_cases ha : a = k <;> simp [modifyKey, ha, ih]

/-- The whole inner loop over one detailed result's groups is a single
update of the period's record, accumulating all its items. -/
theorem foldl_processDetailGroup (buckets : List String) (pk : String)
    (groups : List Group) (fd : List (String × CostRecord)) :
    groups.foldl (fun fd' g => processDetailGroup buckets fd' pk g) fd
      = modifyKey fd pk (fun r =>
          { r with bucket_breakdown :=
              buildBD buckets r.bucket_breakdown groups }) := by
  induction groups generalizing fd with
  | nil => exact (modifyKey_id fd pk).symm
  | cons g t ih =>
    simp only [List.foldl_cons]
    rw [show processDetailGroup buckets fd pk g
        = modifyKey fd pk (fun r =>
            { r with bucket_breakdown :=
                addTo r.bucket_breakdown (groupName buckets g) (groupCost g) })
      from rfl]
    rw [ih, modifyKey_modifyKey]
    rfl

end S3CE

namespace S3CE

/-- A successful lookup comes from a member of the association list. -/
theorem lookup_mem {α : Type} (d : List (String × α)) (k : String) (v : α)
    (h : d.lookup k = some v) : (k, v) ∈ d := by
  induction d with
  | nil => simp at h
  | cons p rest ih =>
    obtain ⟨a, b⟩ := p
    by_cases ha : a = k
    · subst ha
      simp [List.lookup_cons] at h
      simp [h]
    · simp [List.lookup_cons, beq_false_of_ne (Ne.symm ha)] at h
      exact List.mem_cons_of_mem _ (ih h)

/-- Membership after a dict assignment. -/
theorem mem_setKey {α : Type} (d : List (String × α)) (k : String) (v : α)
    (p : String × α) (h : p ∈ setKey d k v) : p ∈ d ∨ p = (k, v) := by
  induction d with
  | nil => simpa [setKey] using h
  | cons q rest ih =>
    obtain ⟨a, b⟩ := q
    by_cases ha : a = k
    · subst ha
      simp [setKey] at h
      rcases h with h | h
      · right; simp [h]
      · left; exact List.mem_cons_of_mem _ h
    · simp [setKey, ha] at h
      rcases h with h | h
      · left; simp [h]
      · rcases ih h with h' | h'
        · left; exact List.mem_cons_of_mem _ h'
        · right; exact h'

/-- Auxiliary invariant: folding the summary phase over any starting dict
whose records all have empty breakdowns keeps every breakdown empty. -/
theorem summaryPhase_aux (results : List ResultByTime)
    (fd : List (String × CostRecord))
    (hfd : ∀ q r, (q, r) ∈ fd → r.bucket_breakdown = ([] : List (String × ℚ))) :
    ∀ q r, (q, r) ∈ results.foldl
        (fun fd' rr =>
          setKey fd' (periodKey rr.timePeriod) ⟨totalOfGroups rr.groups, []⟩)
        fd → r.bucket_breakdown = [] := by
  induction results generalizing fd with
  | nil => exact hfd
  | cons rr rs ih =>
    intro q r hm
    simp only [List.foldl_cons] at hm
    refine ih _ ?_ q r hm
    intro q' r' h'
    rcases mem_setKey _ _ _ _ h' with h'' | h''
    · exact hfd q' r' h''
    · injection h'' with h1 h2
      rw [h2]

/-- Every record produced by the summary phase has an empty breakdown. -/
theorem summaryPhase_breakdown_empty (results : List ResultByTime)
    (pk : String) (rec : CostRecord)
    (h : (pk, rec) ∈ summaryPhase results) : rec.bucket_breakdown = [] :=
  summaryPhase_aux results [] (by simp) pk rec h

/-- The items of period `pk` contributed by one more detailed result. -/
theorem detailItemsFor_cons (r : ResultByTime) (rs : List ResultByTime)
    (pk : String) :
    detailItemsFor (r :: rs) pk
      = if periodKey r.timePeriod = pk
        then r.groups ++ detailItemsFor rs pk
        else detailItemsFor rs pk := by
  by_cases h : periodKey r.timePeriod = pk <;>
    simp [detailItemsFor, List.filter_cons, h]

/-- Invariant of the detailed phase: the record of a period present in `fd`
ends up with its breakdown extended by exactly the items of that period, in
processing order. -/
theorem lookup_foldl_processDetailResult (buckets : List String)
    (results : List ResultByTime) (fd : List (String × CostRecord))
    (pk : String) (h : (fd.lookup pk).isSome) :
    (results.foldl (processDetailResult buckets) fd).lookup pk
      = (fd.lookup pk).map (fun r =>
          { r with bucket_breakdown := (buildBD buckets r.bucket_breakdown
              (detailItemsFor results pk)) }) := by
  induction results generalizing fd with
  | nil =>
    cases hfd : fd.lookup pk <;> simp [detailItemsFor, buildBD, hfd]
  | cons r rs ih =>
    simp only [List.foldl_cons]
    by_cases hpk : periodKey r.timePeriod = pk
    · have hproc : processDetailResult buckets fd r
          = modifyKey fd pk (fun rcd =>
              { rcd with bucket_breakdown := (buildBD buckets
                  rcd.bucket_breakdown r.groups) }) := by
        rw [show processDetailResult buckets fd r
            = (if (fd.lookup (periodKey r.timePeriod)).isSome then
                r.groups.foldl
                  (fun fd' g =>
                    processDetailGroup buckets fd' (periodKey r.timePeriod) g)
                  fd
              else fd) from rfl]
        rw [hpk, if_pos h, foldl_processDetailGroup]
      rw [hproc]
      have h2 : ((modifyKey fd pk (fun rcd =>
          { rcd with bucket_breakdown := (buildBD buckets
              rcd.bucket_breakdown r.groups) })).lookup pk).isSome := by
        rw [lookup_modifyKey_self]
        simpa using h
      rw [ih _ h2, lookup_modifyKey_self]
      cases hfd : fd.lookup pk with
      | none => rw [hfd] at h; simp at h
      | some rcd =>
        simp only [Option.map_some, Option.map_map]
        rw [detailItemsFor_cons, if_pos hpk]
        simp [Function.comp, buildBD, List.foldl_append]
    · have hproc : (processDetailResult buckets fd r).lookup pk
          = fd.lookup pk := by
        rw [show processDetailResult buckets fd r
            = (if (fd.lookup (periodKey r.timePeriod)).isSome then
                r.groups.foldl
                  (fun fd' g =>
                    processDetailGroup buckets fd' (periodKey r.timePeriod) g)
                  fd
              else fd) from rfl]
        by_cases hs : (fd.lookup (periodKey r.timePeriod)).isSome
        · rw [if_pos hs, foldl_processDetailGroup,
            lookup_modifyKey_ne _ _ _ _ (Ne.symm hpk)]
        · rw [if_neg hs]
      have h2 : ((processDetailResult buckets fd r).lookup pk).isSome := by
        rw [hproc]; exact h
      rw [ih _ h2, hproc, detailItemsFor_cons, if_neg hpk]

end S3CE

namespace S3CE

/-- The loop of lines 273-276 takes the first match: if every bucket before
`b` fails the substring test and `b` passes it, `find?` returns `b`. -/
theorem find?_earliest_hit (p : String → Bool) (pre : List String)
    (b : String) (post : List String) (hpre : ∀ x ∈ pre, p x = false)
    (hb : p b = true) :
    (pre ++ b :: post).find? p = some b := by
  induction pre with
  | nil => simp [List.find?_cons, hb]
  | cons x xs ih =>
    have hx : p x = false := hpre x (List.mem_cons_self x xs)
    simp only [List.cons_append, List.find?_cons, hx]
    exact ih (fun y hy => hpre y (List.mem_cons_of_mem _ hy))

/-- C1: every detailed line item processed by `format_cost_data`
accumulates its amount under the FIRST bucket name (in bucket-list order)
that is a substring of its resource identifier, or under the sentinel
`"Other S3 Costs"` when none matches: the final breakdown value at any key
`k` is the sum of the amounts of exactly the items attributed to `k`, the
attribution picks the earliest matching bucket (so an identifier containing
two bucket names goes to the one listed first), and with no match it picks
the sentinel. -/
theorem format_attributes_first_match (cost_data : CostData)
    (buckets : List String) (pk k : String) (s det : CostResponse)
    (hs : cost_data.summary = some s) (hd : cost_data.detailed = some det)
    (hpk : ((summaryPhase s.resultsByTime).lookup pk).isSome) :
    lookupD (breakdownAt (format_cost_data cost_data buckets) pk) k 0
      = attributedSum buckets (detailItemsFor det.resultsByTime pk) k
    ∧ (∀ resource_id pre b post, buckets = pre ++ b :: post →
        (∀ b' ∈ pre, strIn b' resource_id = false) →
        strIn b resource_id = true →
        firstMatchName buckets resource_id = b)
    ∧ (∀ resource_id, (∀ b ∈ buckets, strIn b resource_id = false) →
        firstMatchName buckets resource_id = otherS3Costs) := by
  refine ⟨?_, ?_, ?_⟩
  · have hfmt : format_cost_data cost_data buckets
        = det.resultsByTime.foldl (processDetailResult buckets)
            (summaryPhase s.resultsByTime) := by
      simp [format_cost_data, hs, hd]
    obtain ⟨rec, hrec⟩ := Option.isSome_iff_exists.mp hpk
    have hbd : rec.bucket_breakdown = [] :=
      summaryPhase_breakdown_empty _ _ _ (lookup_mem _ _ _ hrec)
    rw [hfmt]
    unfold breakdownAt
    rw [lookup_foldl_processDetailResult buckets det.resultsByTime _ pk
      (by rw [hrec]; rfl)]
    rw [hrec]
    simp only [Option.map_some', Option.getD_some]
    rw [hbd, lookupD_buildBD]
    simp [lookupD]
  · intro rid pre b post hb hpre hmatch
    rw [hb]
    unfold firstMatchName
    rw [find?_earliest_hit _ pre b post hpre hmatch]
  · intro rid hall
    unfold firstMatchName
    rw [List.find?_eq_none.mpr (fun x hx => by simp [hall x hx])]

/-- Witness for C1: one period, one detailed item whose resource identifier
contains both bucket names; the attribution identity holds and the item is
attributed to `"alpha"`, the bucket listed first. -/
theorem format_attributes_first_match_witness :
    lookupD (breakdownAt (format_cost_data
        ⟨some ⟨[⟨⟨"a", "b"⟩, []⟩]⟩,
         some ⟨[⟨⟨"a", "b"⟩, [⟨["arn-alpha-beta"], ⟨5⟩⟩]⟩]⟩⟩
        ["alpha", "beta"]) "a_to_b") "alpha" 0
      = attributedSum ["alpha", "beta"]
          (detailItemsFor [⟨⟨"a", "b"⟩, [⟨["arn-alpha-beta"], ⟨5⟩⟩]⟩]
            "a_to_b") "alpha"
    ∧ firstMatchName ["alpha", "beta"] "arn-alpha-beta" = "alpha" := by
  have h := format_attributes_first_match
    ⟨some ⟨[⟨⟨"a", "b"⟩, []⟩]⟩,
     some ⟨[⟨⟨"a", "b"⟩, [⟨["arn-alpha-beta"], ⟨5⟩⟩]⟩]⟩⟩
    ["alpha", "beta"] "a_to_b" "alpha"
    ⟨[⟨⟨"a", "b"⟩, []⟩]⟩ ⟨[⟨⟨"a", "b"⟩, [⟨["arn-alpha-beta"], ⟨5⟩⟩]⟩]⟩
    rfl rfl (by decide)
  exact ⟨h.1, h.2.1 "arn-alpha-beta" [] "alpha" ["beta"] rfl (by simp)
    (by decide)⟩

end S3CE

namespace S3CE

/-! ### C10 — soundness of every breakdown entry -/

/-- Where an entry of `addTo d k v` comes from. -/
theorem mem_addTo_cases (d : List (String × ℚ)) (k : String) (v : ℚ)
    (p : String × ℚ) (h : p ∈ addTo d k v) :
    p ∈ d ∨ (p.1 = k ∧ (p.2 = v ∨ ∃ old, (k, old) ∈ d ∧ p.2 = old + v)) := by
  induction d with
  | nil =>
    simp [addTo] at h
    right
    simp [h]
  | cons q rest ih =>
    obtain ⟨a, b⟩ := q
    by_cases ha : a = k
    · subst ha
      simp [addTo] at h
      rcases h with h | h
      · right
        refine ⟨by simp [h], Or.inr ⟨b, by simp, by simp [h]⟩⟩
      · left; exact List.mem_cons_of_mem _ h
    · simp [addTo, ha] at h
      rcases h with h | h
      · left; simp [h]
      · rcases ih h with h' | ⟨h1, h2⟩
        · left; exact List.mem_cons_of_mem _ h'
        · right
          refine ⟨h1, ?_⟩
          rcases h2 with h2 | ⟨old, hold, h2⟩
          · exact Or.inl h2
          · exact Or.inr ⟨old, List.mem_cons_of_mem _ hold, h2⟩

/-- Where an entry of `modifyKey d k f` comes from. -/
theorem mem_modifyKey_cases {α : Type} (d : List (String × α)) (k : String)
    (f : α → α) (p : String × α) (h : p ∈ modifyKey d k f) :
    p ∈ d ∨ ∃ r, (p.1, r) ∈ d ∧ p.2 = f r := by
  induction d with
  | nil => simp [modifyKey] at h
  | cons q rest ih =>
    obtain ⟨a, b⟩ := q
    by_cases ha : a = k
    · subst ha
      simp [modifyKey] at h
      rcases h with h | h
      · right; exact ⟨b, by simp [h], by simp [h]⟩
      · left; exact List.mem_cons_of_mem _ h
    · simp [modifyKey, ha] at h
      rcases h with h | h
      · left; simp [h]
      · rcases ih h with h' | ⟨r, hr, h2⟩
        · left; exact List.mem_cons_of_mem _ h'
        · right; exact ⟨r, List.mem_cons_of_mem _ hr, h2⟩

/-- The attributed name is always a listed bucket or the sentinel. -/
theorem firstMatchName_mem_or (buckets : List String) (rid : String) :
    firstMatchName buckets rid ∈ buckets
    ∨ firstMatchName buckets rid = otherS3Costs := by
  unfold firstMatchName
  cases hf : buckets.find? (fun b => strIn b rid) with
  | none => right; rfl
  | some b => left; exact List.mem_of_find?_eq_some hf

/-- One accumulation step preserves entry soundness. -/
theorem goodEntry_addTo (buckets : List String) (costs : List ℚ)
    (bd : List (String × ℚ)) (k : String) (v : ℚ)
    (hbd : ∀ p ∈ bd, GoodEntry buckets costs p)
    (hk : k ∈ buckets ∨ k = otherS3Costs) (hv : v ∈ costs) :
    ∀ p ∈ addTo bd k v, GoodEntry buckets costs p := by
  intro p hp
  rcases mem_addTo_cases bd k v p hp with h | ⟨h1, h2⟩
  · exact hbd p h
  · refine ⟨by rw [h1]; exact hk, ?_⟩
    rcases h2 with h2 | ⟨old, hold, h2⟩
    · exact ⟨[v], by simpa using hv, by simp [h2]⟩
    · obtain ⟨_, l, hl, hsum⟩ := hbd (k, old) hold
      refine ⟨l ++ [v], ?_, ?_⟩
      · intro c hc
        rcases List.mem_append.mp hc with hc | hc
        · exact hl c hc
        · simp at hc; rw [hc]; exact hv
      · rw [h2, show old = l.sum from hsum]
        simp

/-- Accumulating any item list whose costs come from `costs` preserves
entry soundness. -/
theorem goodEntry_buildBD (buckets : List String) (costs : List ℚ)
    (bd : List (String × ℚ)) (items : List Group)
    (hbd : ∀ p ∈ bd, GoodEntry buckets costs p)
    (hitems : ∀ g ∈ items, groupCost g ∈ costs) :
    ∀ p ∈ buildBD buckets bd items, GoodEntry buckets costs p := by
  induction items generalizing bd with
  | nil => simpa [buildBD] using hbd
  | cons g t ih =>
    rw [buildBD_cons]
    refine ih _ ?_ (fun g' hg' => hitems g' (List.mem_cons_of_mem _ hg'))
    exact goodEntry_addTo buckets costs bd _ _ hbd
      (firstMatchName_mem_or buckets _)
      (hitems g (List.mem_cons_self g t))

/-- The detailed phase preserves soundness of every record's breakdown. -/
theorem goodRecords_foldl (buckets : List String) (costs : List ℚ)
    (results : List ResultByTime) (fd : List (String × CostRecord))
    (hfd : ∀ q rcd, (q, rcd) ∈ fd →
      ∀ p ∈ rcd.bucket_breakdown, GoodEntry buckets costs p)
    (hres : ∀ r ∈ results, ∀ g ∈ r.groups, groupCost g ∈ costs) :
    ∀ q rcd, (q, rcd) ∈ results.foldl (processDetailResult buckets) fd →
      ∀ p ∈ rcd.bucket_breakdown, GoodEntry buckets costs p := by
  induction results generalizing fd with
  | nil => exact hfd
  | cons r rs ih =>
    intro q rcd hm
    simp only [List.foldl_cons] at hm
    refine ih _ ?_ (fun r' hr' => hres r' (List.mem_cons_of_mem _ hr')) q rcd hm
    intro q' rcd' h' p hp
    by_cases hs : ((fd.lookup (periodKey r.timePeriod)).isSome)
    · rw [show processDetailResult buckets fd r
          = modifyKey fd (periodKey r.timePeriod) (fun rc =>
              { rc with bucket_breakdown := (buildBD buckets
                  rc.bucket_breakdown r.groups) }) from by
        rw [show processDetailResult buckets fd r
            = (if (fd.lookup (periodKey r.timePeriod)).isSome then
                r.groups.foldl
                  (fun fd' g =>
                    processDetailGroup buckets fd' (periodKey r.timePeriod) g)
                  fd
              else fd) from rfl]
        rw [if_pos hs, foldl_processDetailGroup]] at h'
      rcases mem_modifyKey_cases _ _ _ _ h' with h'' | ⟨rold, hold, heq⟩
      · exact hfd q' rcd' h'' p hp
      · have heq' : rcd' = { rold with bucket_breakdown := (buildBD buckets
            rold.bucket_breakdown r.groups) } := heq
        rw [heq'] at hp
        exact goodEntry_buildBD buckets costs rold.bucket_breakdown r.groups
          (fun pp hpp => hfd q' rold hold pp hpp)
          (fun g hg => hres r (List.mem_cons_self r rs) g hg) p hp
    · rw [show processDetailResult buckets fd r = fd from by
        rw [show processDetailResult buckets fd r
            = (if (fd.lookup (periodKey r.timePeriod)).isSome then
                r.groups.foldl
                  (fun fd' g =>
                    processDetailGroup buckets fd' (periodKey r.timePeriod) g)
                  fd
              else fd) from rfl]
        rw [if_neg hs]] at h'
      exact hfd q' rcd' h' p hp

/-- C10: for every input `cost_data` and bucket list, every key of every
period's `bucket_breakdown` in the result of `format_cost_data` is either a
supplied bucket name or the sentinel `"Other S3 Costs"`, and every value is
a sum of zero or more of the detailed line-item cost amounts. -/
theorem breakdown_keys_and_values_sound (cost_data : CostData)
    (buckets : List String) (pk : String) (rec : CostRecord) (k : String)
    (v : ℚ) (h1 : (pk, rec) ∈ format_cost_data cost_data buckets)
    (h2 : (k, v) ∈ rec.bucket_breakdown) :
    (k ∈ buckets ∨ k = otherS3Costs)
    ∧ ∃ l : List ℚ, (∀ c ∈ l, c ∈ allDetailCosts cost_data) ∧ v = l.sum := by
  cases hs : cost_data.summary with
  | none => simp [format_cost_data, hs] at h1
  | some s =>
    cases hd : cost_data.detailed with
    | none =>
      have h1' : (pk, rec) ∈ summaryPhase s.resultsByTime := by
        simpa [format_cost_data, hs, hd] using h1
      have : rec.bucket_breakdown = [] :=
        summaryPhase_breakdown_empty _ _ _ h1'
      rw [this] at h2
      simp at h2
    | some det =>
      have h1' : (pk, rec) ∈ det.resultsByTime.foldl
          (processDetailResult buckets) (summaryPhase s.resultsByTime) := by
        simpa [format_cost_data, hs, hd] using h1
      have hAll : allDetailCosts cost_data
          = ((det.resultsByTime.map (fun r => r.groups)).flatten).map
              groupCost := by
        unfold allDetailCosts; rw [hd]
      have hcosts : ∀ r ∈ det.resultsByTime, ∀ g ∈ r.groups,
          groupCost g ∈ allDetailCosts cost_data := by
        intro r hr g hg
        rw [hAll]
        exact List.mem_map_of_mem _ (List.mem_flatten.mpr
          ⟨r.groups, List.mem_map_of_mem _ hr, hg⟩)
      have hbase : ∀ q rcd, (q, rcd) ∈ summaryPhase s.resultsByTime →
          ∀ p ∈ rcd.bucket_breakdown,
            GoodEntry buckets (allDetailCosts cost_data) p := by
        intro q rcd hm p hp
        rw [summaryPhase_breakdown_empty _ _ _ hm] at hp
        simp at hp
      have := goodRecords_foldl buckets (allDetailCosts cost_data)
        det.resultsByTime (summaryPhase s.resultsByTime) hbase hcosts
        pk rec h1' (k, v) h2
      exact this

/-- Witness for C10 at a concrete run: the entry `("alpha", 5)` of the
produced breakdown has a key from the bucket list and a value that is a sum
of line-item amounts. -/
theorem breakdown_keys_and_values_sound_witness :
    ("alpha" ∈ ["alpha"] ∨ "alpha" = otherS3Costs)
    ∧ ∃ l : List ℚ, (∀ c ∈ l, c ∈ allDetailCosts
        ⟨some ⟨[⟨⟨"a", "b"⟩, []⟩]⟩,
         some ⟨[⟨⟨"a", "b"⟩, [⟨["arn-alpha"], ⟨5⟩⟩, ⟨["zzz"], ⟨2⟩⟩]⟩]⟩⟩)
      ∧ (5 : ℚ) = l.sum := by
  have hfmt : format_cost_data
      ⟨some ⟨[⟨⟨"a", "b"⟩, []⟩]⟩,
       some ⟨[⟨⟨"a", "b"⟩, [⟨["arn-alpha"], ⟨5⟩⟩, ⟨["zzz"], ⟨2⟩⟩]⟩]⟩⟩
      ["alpha"]
      = [("a_to_b", ⟨0, [("alpha", 5), ("Other S3 Costs", 2)]⟩)] := by
    simp [format_cost_data, summaryPhase, processDetailResult,
      processDetailGroup, firstMatchName, periodKey, totalOfGroups, setKey,
      addTo, modifyKey, strIn, listIsInfixOf, otherS3Costs, List.lookup]
  exact breakdown_keys_and_values_sound
    ⟨some ⟨[⟨⟨"a", "b"⟩, []⟩]⟩,
     some ⟨[⟨⟨"a", "b"⟩, [⟨["arn-alpha"], ⟨5⟩⟩, ⟨["zzz"], ⟨2⟩⟩]⟩]⟩⟩
    ["alpha"] "a_to_b" ⟨0, [("alpha", 5), ("Other S3 Costs", 2)]⟩ "alpha" 5
    (by rw [hfmt]; exact List.mem_singleton.mpr rfl)
    (List.mem_cons_self _ _)

end S3CE
